import Mathlib

set_option maxRecDepth 8000

/- Shallow embedding of src/validator/src/validation/email.rs.

   Strings are modelled as lists of Unicode scalar characters (`List Char`),
   which is also the unit in which the source's `HasLen::length` counts
   (`chars().count()`).  The three lazily-compiled regular expressions of the
   source are modelled as executable matchers over such lists:

   EMAIL_USER_RE    = ^(?i)[a-z0-9.!#$%&*+/=?^_|~-]+\z   (class also holds
                      an apostrophe, a backtick and both curly braces, coded
                      below by their ASCII codes 39, 96, 123, 125; the dot,
                      bang, hash, dollar, percent, ampersand, star, plus,
                      slash, equals, question mark, caret, underscore, bar,
                      tilde and hyphen are coded likewise)
   EMAIL_DOMAIN_RE  = (?i)^[a-z0-9](?:[a-z0-9-]<0,61>[a-z0-9])?
                      (?:\.[a-z0-9](?:[a-z0-9-]<0,61>[a-z0-9])?)*$
                      (angle brackets stand for the usual repetition braces)
   EMAIL_LITERAL_RE = (?i)\[([A-f0-9:\.]+)\]\z

   The Rust regex crate anchors ^ and $ at the start and end of the whole
   text when the multi-line flag is off, and \z is the absolute end of the
   text, so both EMAIL_USER_RE and EMAIL_DOMAIN_RE match a string iff the
   whole string belongs to the described language, while EMAIL_LITERAL_RE is
   anchored only on the right.  The case-insensitive flag applies Unicode
   simple case folding to the classes: within ASCII it closes a-z with A-Z,
   and the only characters outside ASCII whose simple fold lands in a-z are
   U+017F (long s, folding with s) and U+212A (the Kelvin sign, folding
   with k), so every folded class below is its ASCII case closure together
   with those two characters.  For EMAIL_LITERAL_RE the character range A-f
   spans the codes 0x41-0x66 and its ASCII case closure is the full code
   range 0x41-0x7A. -/

/-- ASCII decimal digit, the regex class 0-9. -/
def isAsciiDigit (c : Char) : Bool := 48 ≤ c.toNat && c.toNat ≤ 57

/-- ASCII uppercase letter A-Z. -/
def isAsciiUpper (c : Char) : Bool := 65 ≤ c.toNat && c.toNat ≤ 90

/-- ASCII lowercase letter a-z. -/
def isAsciiLower (c : Char) : Bool := 97 ≤ c.toNat && c.toNat ≤ 122

/-- ASCII letter or digit: the ASCII reading of the class [a-z0-9] under
case insensitivity, without the Unicode folding closure. -/
def isAsciiAlnum (c : Char) : Bool := isAsciiDigit c || isAsciiUpper c || isAsciiLower c

/-- The two characters outside ASCII whose Unicode simple case fold lands
in a-z: U+017F (code 383, LATIN SMALL LETTER LONG S, folding with s) and
U+212A (code 8490, KELVIN SIGN, folding with k).  Rust regex's (?i) flag
uses simple case folding, so every source class containing the letters
also matches these two characters. -/
def isFoldExtra (c : Char) : Bool := c.toNat = 383 || c.toNat = 8490

/-- The folded regex class (?i)[a-z0-9] as Rust's regex crate matches it:
an ASCII letter or digit, or one of the two fold extras. -/
def isFoldedAlnum (c : Char) : Bool := isAsciiAlnum c || isFoldExtra c

/-- ASCII reading of the EMAIL_USER_RE character class: both-case ASCII
letters, digits, and the punctuation listed in the source regex, given
here by ASCII code: 33 bang, 35 hash, 36 dollar, 37 percent, 38 ampersand,
39 apostrophe, 42 star, 43 plus, 45 hyphen, 46 dot, 47 slash, 61 equals,
63 question mark, 94 caret, 95 underscore, 96 backtick, 123 left curly
brace, 124 vertical bar, 125 right curly brace, 126 tilde. -/
def isUserCharAscii (c : Char) : Bool :=
  isAsciiAlnum c ||
  [33, 35, 36, 37, 38, 39, 42, 43, 45, 46, 47, 61, 63,
   94, 95, 96, 123, 124, 125, 126].contains c.toNat

/-- Membership in the EMAIL_USER_RE character class as the regex engine
matches it: the ASCII reading closed under Unicode simple case folding. -/
def isUserChar (c : Char) : Bool := isUserCharAscii c || isFoldExtra c

/-- EMAIL_USER_RE as a whole-string matcher: one or more characters of the
class, anchored at both ends. -/
def emailUserMatch (user_part : List Char) : Bool :=
  !user_part.isEmpty && user_part.all isUserChar

/-- Tail of a hostname label after its first character, against the regex
piece (?:[a-z0-9-]<0,61>[a-z0-9])?: either nothing, or up to 61 characters
drawn from [a-z0-9-] followed by a final [a-z0-9].  The fuel argument is
the number of characters the piece may still consume (62 at the start). -/
def labelTail : Nat → List Char → Bool
  | _, [] => true
  | fuel, [c] => isFoldedAlnum c && decide (1 ≤ fuel)
  | fuel, c :: rest => (isFoldedAlnum c || c = '-') && decide (1 ≤ fuel) && labelTail (fuel - 1) rest

/-- One hostname label of EMAIL_DOMAIN_RE:
[a-z0-9](?:[a-z0-9-]<0,61>[a-z0-9])?, case-insensitively (hence over the
folded alphanumerics). -/
def validLabel : List Char → Bool
  | [] => false
  | c :: rest => isFoldedAlnum c && labelTail 62 rest

/-- Split a list on every occurrence of a separator character; the result
always has one chunk more than there are separators, so it is never empty
and empty chunks witness leading, trailing or doubled separators. -/
def splitOnChar (sep : Char) : List Char → List (List Char)
  | [] => [[]]
  | c :: rest =>
    match splitOnChar sep rest with
    | g :: gs => if c = sep then [] :: g :: gs else (c :: g) :: gs
    | [] => [[]]

/-- EMAIL_DOMAIN_RE as a whole-string matcher.  Since no label character is
a dot, the regex label(\.label)* matches a string exactly when every chunk
of the string split on the dots matches the label piece, the empty string
giving one empty chunk which no label matches. -/
def emailDomainMatch (domain_part : List Char) : Bool :=
  (splitOnChar '.' domain_part).all validLabel

/-- Membership in the EMAIL_LITERAL_RE capture class (?i)[A-f0-9:\.]: the
range A-f spans the ASCII codes 0x41-0x66 (uppercase letters, bracket
punctuation, a-f) and its ASCII case closure is the full code range
65-122, together with the digits, the colon, the dot, and the two
simple-case-folding extras. -/
def isLiteralChar (c : Char) : Bool :=
  (65 ≤ c.toNat && c.toNat ≤ 122) || isAsciiDigit c || c.toNat = 58 || c.toNat = 46 ||
  isFoldExtra c

/-- Attempt of EMAIL_LITERAL_RE at one start position: because \] is
followed by \z, a match starting here consumes the whole remaining suffix,
which must be an opening bracket, one or more capture-class characters, and
a closing bracket ending the string.  Returns the capture group. -/
def bracketTailMatch (s : List Char) : Option (List Char) :=
  match s with
  | '[' :: rest =>
    if 2 ≤ rest.length ∧ rest.getLast? = some ']' ∧ rest.dropLast.all isLiteralChar = true
    then some rest.dropLast
    else none
  | _ => none

/-- EMAIL_LITERAL_RE.captures: the regex engine scans start positions from
the left and reports the first (leftmost) match; group 1 of that match. -/
def emailLiteralCaptures : List Char → Option (List Char)
  | [] => none
  | c :: rest =>
    match bracketTailMatch (c :: rest) with
    | some cap => some cap
    | none => emailLiteralCaptures rest

/-- Numeric value of a list of ASCII digits, most significant first. -/
def digitsVal (l : List Char) : Nat := l.foldl (fun n c => n * 10 + (c.toNat - 48)) 0

/-- Modelled from the spec: one octet of a dotted-quad IPv4 address for the
external IP-syntax validator of section 6 (the source's
crate::validation::ip::validate_ip is not under src/): a nonempty run of
decimal digits with value at most 255 and no leading zero beyond the
single digit 0, per standard numeric parsing. -/
def octetOk (g : List Char) : Bool :=
  !g.isEmpty && g.all isAsciiDigit &&
  (decide (g.length = 1) || decide (g.head? ≠ some '0')) &&
  decide (digitsVal g ≤ 255)

/-- Modelled from the spec: IPv4 dotted-quad syntax, four octets separated
by dots, each octet 0-255. -/
def validateIpv4 (s : List Char) : Bool :=
  match splitOnChar '.' s with
  | [a, b, c, d] => octetOk a && octetOk b && octetOk c && octetOk d
  | _ => false

/-- ASCII hexadecimal digit, case-insensitive. -/
def isHexDigitChar (c : Char) : Bool :=
  isAsciiDigit c || (65 ≤ c.toNat && c.toNat ≤ 70) || (97 ≤ c.toNat && c.toNat ≤ 102)

/-- Modelled from the spec: one 16-bit group of an IPv6 address, one to
four hexadecimal digits. -/
def hextetOk (g : List Char) : Bool :=
  decide (1 ≤ g.length) && decide (g.length ≤ 4) && g.all isHexDigitChar

/-- Modelled from the spec: number of 16-bit groups represented by a
colon-free chunk sequence whose last chunk may be an embedded IPv4 tail
counting as two groups; none when some chunk is neither. -/
def groupsCount (gs : List (List Char)) : Option Nat :=
  match gs with
  | [] => some 0
  | g :: rest =>
    match groupsCount rest with
    | some k =>
      if hextetOk g then some (k + 1)
      else if rest = [] ∧ validateIpv4 g = true then some 2
      else none
    | none => none

/-- Modelled from the spec: locate the first occurrence of a double colon,
returning the text before and after it. -/
def findDoubleColon : List Char → Option (List Char × List Char)
  | [] => none
  | [_] => none
  | a :: b :: rest =>
    if a = ':' ∧ b = ':' then some ([], rest)
    else
      match findDoubleColon (b :: rest) with
      | some (pre, post) => some (a :: pre, post)
      | none => none

/-- Modelled from the spec: IPv6 colon-hex syntax: eight 16-bit groups
separated by colons, or a single double colon standing for one or more
zero groups, with an optional embedded IPv4 tail counting as two groups. -/
def validateIpv6 (s : List Char) : Bool :=
  match findDoubleColon s with
  | some (head, tail) =>
    let hg := if head.isEmpty then [] else splitOnChar ':' head
    let tg := if tail.isEmpty then [] else splitOnChar ':' tail
    hg.all hextetOk &&
    (match groupsCount tg with
     | some k => decide (hg.length + k ≤ 7)
     | none => false)
  | none =>
    match groupsCount (splitOnChar ':' s) with
    | some k => decide (k = 8)
    | none => false

/-- Modelled from the spec: the external IP-address-syntax validator
(section 6, crate::validation::ip::validate_ip, not under src/): true iff
the text is a syntactically valid IPv4 or IPv6 address. -/
def validate_ip (s : List Char) : Bool := validateIpv4 s || validateIpv6 s

/-- validate_domain_part from the source: first the hostname grammar, then
the bracketed-literal fallback delegating to the IP validator; group 1 of
EMAIL_LITERAL_RE always participates in a match, so the source's inner
None arm is folded into the match on the captures. -/
def validate_domain_part (domain_part : List Char) : Bool :=
  if emailDomainMatch domain_part then true
  else
    match emailLiteralCaptures domain_part with
    | some c => validate_ip c
    | none => false

/-- Split a list at the first occurrence of a separator character,
returning the text before and after it, or none when it is absent. -/
def breakOnFirst (sep : Char) : List Char → Option (List Char × List Char)
  | [] => none
  | c :: rest =>
    if c = sep then some ([], rest)
    else
      match breakOnFirst sep rest with
      | some (p, q) => some (c :: p, q)
      | none => none

/-- Model of Rust str::rsplitn(2, sep).collect(): at most two fields,
scanned from the end, so the first collected field is the text after the
last separator and the second is everything before it; a single field
holding the whole string when the separator is absent. -/
def rsplitn2 (sep : Char) (s : List Char) : List (List Char) :=
  match breakOnFirst sep s.reverse with
  | some (p, q) => [p.reverse, q.reverse]
  | none => [s]

/-- Checks of ValidateEmail::validate_email performed after the split into
user part and domain part: the RFC 5321 length guard (64 and 255, counted
in characters as HasLen does for strings), EMAIL_USER_RE, the domain
check, and on its failure one attempt of the IDN to-ASCII conversion whose
error is turned into false.  The conversion collaborator (the idna crate's
domain_to_ascii) is passed in as a function to an optional result. -/
def emailChecks (toAscii : List Char → Option (List Char))
    (user_part domain_part : List Char) : Bool :=
  if 64 < user_part.length ∨ 255 < domain_part.length then false
  else if !emailUserMatch user_part then false
  else if validate_domain_part domain_part then true
  else
    match toAscii domain_part with
    | some d => validate_domain_part d
    | none => false

/-- ValidateEmail::validate_email: the empty-or-no-at guard, the
rsplitn(2, at) split into parts, indexing parts[1] and parts[0], and the
checks above.  The result is an Option: some boolean on the paths the
source can take, none standing for the panic that indexing parts[1] would
raise should the split ever fail to produce two fields. -/
def validate_email (toAscii : List Char → Option (List Char)) (val : List Char) : Option Bool :=
  if val = [] ∨ '@' ∉ val then some false
  else
    match rsplitn2 '@' val with
    | [domain_part, user_part] => some (emailChecks toAscii user_part domain_part)
    | _ => none

/-- Collaborator instantiation: a to-ASCII transform that always fails. -/
def noAscii : List Char → Option (List Char) := fun _ => none

/-- Collaborator instantiation: the identity transform, which is how the
IDNA to-ASCII algorithm acts on domains that are already lowercase ASCII
(it does not reject underscores, empty labels or even control characters
such as a newline, since the source calls it without the STD3 or
DNS-length checks, under which those characters are
disallowed_STD3_valid and pass through). -/
def asciiId : List Char → Option (List Char) := fun d => some d

/-- Characters of a string literal. -/
def strL (s : String) : List Char := s.data

/-- Collaborator instantiation tabulating idna::domain_to_ascii, as the
source calls it (UTS-46 with the STD3 rules off), at the two inputs the
theorems below use: fullwidth digits map to their ASCII forms, while the
brackets and the newline are disallowed_STD3_valid and pass through
unchanged. -/
def idnaSample : List Char → Option (List Char) := fun d =>
  if d = strL "[１２７.0.0.1]" then some (strL "[127.0.0.1]")
  else if d = strL "\n[１２７.0.0.1]" then some (strL "\n[127.0.0.1]")
  else none

/-- Follows the amended claim's words (refinement side): one hostname
label, 1 to 63 characters, first and last character a folded alphanumeric
(ASCII letter or digit, or one of the two simple-case-folding extras),
every character a folded alphanumeric or a hyphen, so hyphens only
internal and no underscore. -/
def specLabelP (l : List Char) : Prop :=
  1 ≤ l.length ∧ l.length ≤ 63 ∧
  (∀ c, l.head? = some c → isFoldedAlnum c = true) ∧
  (∀ c, l.getLast? = some c → isFoldedAlnum c = true) ∧
  (∀ c ∈ l, isFoldedAlnum c = true ∨ c = '-')

/-- Join chunks with one separator character between consecutive chunks. -/
def intercalateChar (sep : Char) : List (List Char) → List Char
  | [] => []
  | [g] => g
  | g :: gs => g ++ sep :: intercalateChar sep gs

/-- Follows the spec's words (refinement side): the entire domain has the
bracketed literal form: an opening bracket, nonempty content drawn only
from hexadecimal digits, dots and colons, and a single closing bracket
ending the string. -/
def specEntireLiteral (d : List Char) : Bool :=
  match d with
  | '[' :: rest =>
    decide (2 ≤ rest.length) && decide (rest.getLast? = some ']') &&
    rest.dropLast.all (fun c => isHexDigitChar c || c = '.' || c = ':')
  | _ => false

/- Lemma layer: structural facts about the split, the matchers and the
leftmost literal capture, from which the claim theorems are assembled. -/

theorem breakOnFirst_eq_some {sep : Char} :
    ∀ {l p q : List Char}, breakOnFirst sep l = some (p, q) →
      l = p ++ sep :: q ∧ sep ∉ p := by
  intro l
  induction l with
  | nil => intro p q h; simp [breakOnFirst] at h
  | cons c rest ih =>
    intro p q h
    by_cases hc : c = sep
    · rw [show breakOnFirst sep (c :: rest) = some ([], rest) from by simp [breakOnFirst, hc]] at h
      injection h with h2
      injection h2 with hp hq
      subst hp; subst hq
      simp [hc]
    · simp only [breakOnFirst, if_neg hc] at h
      cases hb : breakOnFirst sep rest with
      | none => rw [hb] at h; exact absurd h (by simp)
      | some pq =>
        obtain ⟨p0, q0⟩ := pq
        rw [hb] at h
        simp only [Option.some.injEq, Prod.mk.injEq] at h
        obtain ⟨hp, hq⟩ := h
        subst hp; subst hq
        obtain ⟨h1, h2⟩ := ih hb
        constructor
        · rw [h1]; rfl
        · intro hmem
          rcases List.mem_cons.mp hmem with h3 | h3
          · exact hc h3.symm
          · exact h2 h3

theorem breakOnFirst_isSome {sep : Char} :
    ∀ {l : List Char}, sep ∈ l → (breakOnFirst sep l).isSome = true := by
  intro l
  induction l with
  | nil => intro h; simp at h
  | cons c rest ih =>
    intro h
    by_cases hc : c = sep
    · simp [breakOnFirst, hc]
    · have hmem : sep ∈ rest := by
        rcases List.mem_cons.mp h with h2 | h2
        · exact absurd h2.symm hc
        · exact h2
      have := ih hmem
      simp only [breakOnFirst, if_neg hc]
      cases hb : breakOnFirst sep rest with
      | none => rw [hb] at this; exact absurd this (by simp)
      | some pq => simp

theorem breakOnFirst_append {sep : Char} :
    ∀ (p q : List Char), sep ∉ p → breakOnFirst sep (p ++ sep :: q) = some (p, q) := by
  intro p
  induction p with
  | nil => intro q _; simp [breakOnFirst]
  | cons c rest ih =>
    intro q hmem
    have hc : c ≠ sep := by
      intro h; exact hmem (h ▸ List.mem_cons_self c rest)
    have hr : sep ∉ rest := fun h => hmem (List.mem_cons_of_mem _ h)
    have hih := ih q hr
    show breakOnFirst sep (c :: (rest ++ sep :: q)) = some (c :: rest, q)
    simp only [breakOnFirst, if_neg hc]
    rw [hih]

theorem rsplitn2_append (u d : List Char) (hd : '@' ∉ d) :
    rsplitn2 '@' (u ++ '@' :: d) = [d, u] := by
  have hrev : (u ++ '@' :: d).reverse = d.reverse ++ '@' :: u.reverse := by
    simp [List.reverse_append]
  have hmem : '@' ∉ d.reverse := by simpa using hd
  simp [rsplitn2, hrev, breakOnFirst_append _ _ hmem]

theorem exists_split {s : List Char} (h : '@' ∈ s) :
    ∃ u d, s = u ++ '@' :: d ∧ '@' ∉ d ∧ rsplitn2 '@' s = [d, u] := by
  have h2 : '@' ∈ s.reverse := by simpa using h
  have h3 := breakOnFirst_isSome h2
  cases hb : breakOnFirst '@' s.reverse with
  | none => rw [hb] at h3; exact absurd h3 (by simp)
  | some pq =>
    obtain ⟨p, q⟩ := pq
    obtain ⟨heq, hnp⟩ := breakOnFirst_eq_some hb
    refine ⟨q.reverse, p.reverse, ?_, by simpa using hnp, ?_⟩
    · have := congrArg List.reverse heq
      simpa [List.reverse_append] using this
    · simp [rsplitn2, hb]

theorem validate_email_split (toAscii : List Char → Option (List Char))
    (u d : List Char) (hd : '@' ∉ d) :
    validate_email toAscii (u ++ '@' :: d) = some (emailChecks toAscii u d) := by
  have hmem : '@' ∈ u ++ '@' :: d := by simp
  simp only [validate_email]
  rw [if_neg (by simp [hmem]), rsplitn2_append u d hd]

theorem validate_email_noAt (toAscii : List Char → Option (List Char))
    {s : List Char} (h : '@' ∉ s) : validate_email toAscii s = some false := by
  simp only [validate_email]
  rw [if_pos (Or.inr h)]

theorem emailChecks_len {toAscii : List Char → Option (List Char)} {u d : List Char}
    (h : 64 < u.length ∨ 255 < d.length) : emailChecks toAscii u d = false := by
  simp only [emailChecks]
  rw [if_pos h]

theorem emailChecks_user_false {toAscii : List Char → Option (List Char)} {u d : List Char}
    (h : emailUserMatch u = false) : emailChecks toAscii u d = false := by
  simp only [emailChecks]
  by_cases hlen : 64 < u.length ∨ 255 < d.length
  · rw [if_pos hlen]
  · rw [if_neg hlen, h]
    simp

theorem emailChecks_domain {toAscii : List Char → Option (List Char)} {u d : List Char}
    (hlen : ¬(64 < u.length ∨ 255 < d.length)) (hu : emailUserMatch u = true)
    (hd : validate_domain_part d = false) :
    emailChecks toAscii u d =
      (match toAscii d with
       | some a => validate_domain_part a
       | none => false) := by
  simp only [emailChecks]
  rw [if_neg hlen, hu, hd]
  simp

theorem emailUserMatch_false_of_mem {u : List Char} {c : Char} (hc : c ∈ u)
    (hbad : isUserChar c = false) : emailUserMatch u = false := by
  cases hm : emailUserMatch u
  · rfl
  · simp only [emailUserMatch, Bool.and_eq_true] at hm
    have := List.all_eq_true.mp hm.2 c hc
    rw [hbad] at this
    exact absurd this (by simp)

theorem labelTail_chars : ∀ (f : Nat) (r : List Char), labelTail f r = true →
    ∀ c ∈ r, (isFoldedAlnum c || c = '-') = true := by
  intro f r
  induction r generalizing f with
  | nil => intro _ c hc; simp at hc
  | cons x rest ih =>
    cases rest with
    | nil =>
      intro h c hc
      simp only [labelTail, Bool.and_eq_true] at h
      simp only [List.mem_singleton] at hc
      subst hc
      simp [h.1]
    | cons y rest2 =>
      intro h c hc
      simp only [labelTail, Bool.and_eq_true] at h
      rcases List.mem_cons.mp hc with rfl | hc2
      · exact h.1.1
      · exact ih (f - 1) h.2 c hc2

theorem labelTail_iff : ∀ (f : Nat) (r : List Char),
    labelTail f r = true ↔
      (r.length ≤ f ∧ (∀ c, r.getLast? = some c → isFoldedAlnum c = true) ∧
       ∀ c ∈ r, (isFoldedAlnum c || c = '-') = true) := by
  intro f r
  induction r generalizing f with
  | nil => simp [labelTail]
  | cons x rest ih =>
    cases rest with
    | nil =>
      simp only [labelTail, Bool.and_eq_true, decide_eq_true_eq]
      constructor
      · rintro ⟨h1, h2⟩
        refine ⟨by simpa using h2, ?_, ?_⟩
        · intro c hc
          simp only [List.getLast?_singleton, Option.some.injEq] at hc
          subst hc; exact h1
        · intro c hc
          simp only [List.mem_singleton] at hc
          subst hc; simp [h1]
      · rintro ⟨h1, h2, _⟩
        exact ⟨h2 x (by simp), by simpa using h1⟩
    | cons y rest2 =>
      simp only [labelTail, Bool.and_eq_true, decide_eq_true_eq, ih (f - 1)]
      constructor
      · rintro ⟨⟨h1, h2⟩, h3, h4, h5⟩
        refine ⟨by simp only [List.length_cons] at h3 ⊢; omega, ?_, ?_⟩
        · intro c hc
          rw [List.getLast?_cons_cons] at hc
          exact h4 c hc
        · intro c hc
          rcases List.mem_cons.mp hc with rfl | hc2
          · exact h1
          · exact h5 c hc2
      · rintro ⟨h1, h2, h3⟩
        have hf : 1 ≤ f := by simp only [List.length_cons] at h1; omega
        refine ⟨⟨h3 x (by simp), hf⟩, ?_, ?_, ?_⟩
        · simp only [List.length_cons] at h1 ⊢; omega
        · intro c hc
          exact h2 c (by rw [List.getLast?_cons_cons]; exact hc)
        · intro c hc
          exact h3 c (List.mem_cons_of_mem _ hc)

theorem validLabel_iff (l : List Char) : validLabel l = true ↔ specLabelP l := by
  cases l with
  | nil =>
    simp only [validLabel, specLabelP]
    simp
  | cons x rest =>
    simp only [validLabel, Bool.and_eq_true, labelTail_iff, specLabelP]
    constructor
    · rintro ⟨h1, h2, h3, h4⟩
      refine ⟨by simp, by simp only [List.length_cons]; omega, ?_, ?_, ?_⟩
      · intro c hc
        simp only [List.head?_cons, Option.some.injEq] at hc
        subst hc; exact h1
      · intro c hc
        cases rest with
        | nil =>
          simp only [List.getLast?_singleton, Option.some.injEq] at hc
          subst hc; exact h1
        | cons y rest2 =>
          rw [List.getLast?_cons_cons] at hc
          exact h3 c hc
      · intro c hc
        rcases List.mem_cons.mp hc with rfl | hc2
        · exact Or.inl h1
        · have := h4 c hc2
          simpa [Bool.or_eq_true, decide_eq_true_eq] using this
    · rintro ⟨_, h2, h3, h4, h5⟩
      have hx : isFoldedAlnum x = true := h3 x (by simp)
      refine ⟨hx, ?_, ?_, ?_⟩
      · simp only [List.length_cons] at h2 ⊢; omega
      · intro c hc
        cases rest with
        | nil => simp at hc
        | cons y rest2 =>
          exact h4 c (by rw [List.getLast?_cons_cons]; exact hc)
      · intro c hc
        have := h5 c (List.mem_cons_of_mem _ hc)
        simpa [Bool.or_eq_true, decide_eq_true_eq] using this

theorem splitOnChar_ne_nil (sep : Char) : ∀ l : List Char, splitOnChar sep l ≠ [] := by
  intro l
  cases l with
  | nil => simp [splitOnChar]
  | cons c rest =>
    simp only [splitOnChar]
    cases h : splitOnChar sep rest with
    | nil => simp
    | cons g gs => by_cases hc : c = sep <;> simp [hc]

theorem mem_splitOnChar {sep : Char} :
    ∀ {l : List Char} {c : Char}, c ∈ l → c ≠ sep →
      ∃ g ∈ splitOnChar sep l, c ∈ g := by
  intro l
  induction l with
  | nil => intro c hc _; simp at hc
  | cons x rest ih =>
    intro c hc hne
    cases hsp : splitOnChar sep rest with
    | nil => exact absurd hsp (splitOnChar_ne_nil sep rest)
    | cons g gs =>
      rcases List.mem_cons.mp hc with rfl | hmem
      · refine ⟨c :: g, ?_, by simp⟩
        simp [splitOnChar, hsp, hne]
      · obtain ⟨g0, hg0, hcg0⟩ := ih hmem hne
        rw [hsp] at hg0
        by_cases hx : x = sep
        · refine ⟨g0, ?_, hcg0⟩
          simp only [splitOnChar, hsp, if_pos hx]
          exact List.mem_cons_of_mem _ hg0
        · rcases List.mem_cons.mp hg0 with rfl | hg0s
          · refine ⟨x :: g0, ?_, List.mem_cons_of_mem _ hcg0⟩
            simp [splitOnChar, hsp, hx]
          · refine ⟨g0, ?_, hcg0⟩
            simp only [splitOnChar, hsp, if_neg hx]
            exact List.mem_cons_of_mem _ hg0s

theorem splitOnChar_of_not_mem {sep : Char} :
    ∀ {l : List Char}, sep ∉ l → splitOnChar sep l = [l] := by
  intro l
  induction l with
  | nil => intro _; rfl
  | cons c rest ih =>
    intro h
    have hc : c ≠ sep := by rintro rfl; exact h (by simp)
    have hr : sep ∉ rest := fun hm => h (by simp [hm])
    simp [splitOnChar, ih hr, hc]

theorem splitOnChar_append {sep : Char} :
    ∀ {p : List Char} (q : List Char), sep ∉ p →
      splitOnChar sep (p ++ sep :: q) = p :: splitOnChar sep q := by
  intro p
  induction p with
  | nil =>
    intro q _
    cases hq : splitOnChar sep q with
    | nil => exact absurd hq (splitOnChar_ne_nil sep q)
    | cons g gs => simp [splitOnChar, hq]
  | cons c rest ih =>
    intro q hmem
    have hc : c ≠ sep := by rintro rfl; exact hmem (by simp)
    have hr : sep ∉ rest := fun hm => hmem (by simp [hm])
    have hih := ih q hr
    show splitOnChar sep (c :: (rest ++ sep :: q)) = (c :: rest) :: splitOnChar sep q
    simp only [splitOnChar]
    rw [hih]
    simp [hc]

theorem intercalateChar_splitOnChar (sep : Char) :
    ∀ l : List Char, intercalateChar sep (splitOnChar sep l) = l := by
  intro l
  induction l with
  | nil => rfl
  | cons c rest ih =>
    cases hr : splitOnChar sep rest with
    | nil => exact absurd hr (splitOnChar_ne_nil sep rest)
    | cons g gs =>
      by_cases hc : c = sep
      · simp only [splitOnChar, hr, if_pos hc]
        show sep :: intercalateChar sep (g :: gs) = c :: rest
        rw [← hr, ih, hc]
      · simp only [splitOnChar, hr, if_neg hc]
        cases gs with
        | nil =>
          show c :: g = c :: rest
          have : intercalateChar sep [g] = g := rfl
          rw [← this, ← hr, ih]
        | cons g2 gs2 =>
          show (c :: g) ++ sep :: intercalateChar sep (g2 :: gs2) = c :: rest
          have : g ++ sep :: intercalateChar sep (g2 :: gs2) =
              intercalateChar sep (g :: g2 :: gs2) := rfl
          rw [List.cons_append, this, ← hr, ih]

theorem splitOnChar_intercalateChar {sep : Char} :
    ∀ ls : List (List Char), ls ≠ [] → (∀ l ∈ ls, sep ∉ l) →
      splitOnChar sep (intercalateChar sep ls) = ls := by
  intro ls
  induction ls with
  | nil => intro h _; exact absurd rfl h
  | cons g gs ih =>
    intro _ hmem
    cases gs with
    | nil => exact splitOnChar_of_not_mem (hmem g (by simp))
    | cons g2 gs2 =>
      show splitOnChar sep (g ++ sep :: intercalateChar sep (g2 :: gs2)) = g :: g2 :: gs2
      rw [splitOnChar_append _ (hmem g (by simp))]
      rw [ih (by simp) (fun l hl => hmem l (List.mem_cons_of_mem _ hl))]

theorem emailDomainMatch_chars {d : List Char} (h : emailDomainMatch d = true) :
    ∀ c ∈ d, c = '.' ∨ (isFoldedAlnum c || c = '-') = true := by
  intro c hc
  by_cases hdot : c = '.'
  · exact Or.inl hdot
  · right
    obtain ⟨g, hg, hcg⟩ := mem_splitOnChar hc hdot
    have hlab := List.all_eq_true.mp h g hg
    cases g with
    | nil => simp at hcg
    | cons x rest =>
      simp only [validLabel, Bool.and_eq_true] at hlab
      rcases List.mem_cons.mp hcg with rfl | hmem
      · simp [hlab.1]
      · exact labelTail_chars 62 rest hlab.2 c hmem

theorem emailDomainMatch_newline {d : List Char} (h : '\n' ∈ d) :
    emailDomainMatch d = false := by
  cases hm : emailDomainMatch d
  · rfl
  · rcases emailDomainMatch_chars hm _ h with h1 | h2
    · exact absurd h1 (by decide)
    · exact absurd h2 (by decide)

theorem bracketTailMatch_eq_some {s cap : List Char} (h : bracketTailMatch s = some cap) :
    s = '[' :: (cap ++ [']']) ∧ cap ≠ [] ∧ cap.all isLiteralChar = true := by
  unfold bracketTailMatch at h
  split at h
  · rename_i rest
    split at h
    · rename_i hcond
      obtain ⟨hlen, hlast, hall⟩ := hcond
      injection h with h2
      subst h2
      have hne : rest ≠ [] := by
        rintro rfl; simp at hlen
      have hrec : rest.dropLast ++ [']'] = rest := by
        have hcat := List.dropLast_concat_getLast hne
        rw [List.getLast?_eq_getLast_of_ne_nil hne] at hlast
        injection hlast with h3
        rw [← h3]
        exact hcat
      refine ⟨by rw [hrec], ?_, hall⟩
      intro h0
      have := List.length_dropLast rest
      rw [h0] at this
      simp at this
      omega
    · exact absurd h (by simp)
  · exact absurd h (by simp)

theorem emailLiteralCaptures_eq_some :
    ∀ {s cap : List Char}, emailLiteralCaptures s = some cap →
      ∃ pre, s = pre ++ '[' :: (cap ++ [']']) ∧ cap ≠ [] ∧ cap.all isLiteralChar = true := by
  intro s
  induction s with
  | nil => intro cap h; simp [emailLiteralCaptures] at h
  | cons c rest ih =>
    intro cap h
    simp only [emailLiteralCaptures] at h
    cases hb : bracketTailMatch (c :: rest) with
    | some cap0 =>
      rw [hb] at h
      injection h with h2
      subst h2
      obtain ⟨hs, hne, hall⟩ := bracketTailMatch_eq_some hb
      exact ⟨[], by simpa using hs, hne, hall⟩
    | none =>
      rw [hb] at h
      obtain ⟨pre, hs, hne, hall⟩ := ih h
      exact ⟨c :: pre, by simp [hs], hne, hall⟩

theorem emailLiteralCaptures_getLast {d cap : List Char}
    (h : emailLiteralCaptures d = some cap) : d.getLast? = some ']' := by
  obtain ⟨pre, hs, _, _⟩ := emailLiteralCaptures_eq_some h
  rw [hs, show pre ++ '[' :: (cap ++ [']']) = (pre ++ '[' :: cap) ++ [']'] by simp]
  exact List.getLast?_concat _

theorem emailLiteralCaptures_of_getLast {d : List Char} (h : d.getLast? ≠ some ']') :
    emailLiteralCaptures d = none := by
  cases hc : emailLiteralCaptures d with
  | none => rfl
  | some cap => exact absurd (emailLiteralCaptures_getLast hc) h

theorem validate_domain_part_no_bracket {d : List Char} (hm : emailDomainMatch d = false)
    (hb : d.getLast? ≠ some ']') : validate_domain_part d = false := by
  simp [validate_domain_part, hm, emailLiteralCaptures_of_getLast hb]

theorem validate_domain_part_literal {d : List Char} (hm : emailDomainMatch d = false)
    (h : validate_domain_part d = true) :
    ∃ cap, emailLiteralCaptures d = some cap ∧ validate_ip cap = true := by
  simp only [validate_domain_part, hm] at h
  simp only [Bool.false_eq_true, if_false] at h
  cases hc : emailLiteralCaptures d with
  | none => rw [hc] at h; exact absurd h (by simp)
  | some cap => rw [hc] at h; exact ⟨cap, rfl, h⟩

/-- C1: for every input string, validate_email returns a boolean and never
panics: the rsplitn(2) split after the contains-at guard always yields
exactly two parts, so the parts[1] index is in bounds, and an error of the
IDN conversion collaborator is absorbed into a false result rather than
propagated. -/
theorem claim1_total_no_panic :
    (∀ (toAscii : List Char → Option (List Char)) (s : List Char),
        ∃ b, validate_email toAscii s = some b)
    ∧ (∀ s : List Char, '@' ∈ s → (rsplitn2 '@' s).length = 2)
    ∧ (∀ (toAscii : List Char → Option (List Char)) (u d : List Char), '@' ∉ d →
        validate_domain_part d = false → toAscii d = none →
        validate_email toAscii (u ++ '@' :: d) = some false) := by
  refine ⟨?_, ?_, ?_⟩
  · intro toAscii s
    by_cases hat : '@' ∈ s
    · obtain ⟨u, d, rfl, hd, _⟩ := exists_split hat
      exact ⟨_, validate_email_split _ _ _ hd⟩
    · exact ⟨false, validate_email_noAt _ hat⟩
  · intro s h
    obtain ⟨u, d, rfl, hd, hr⟩ := exists_split h
    rw [hr]
    rfl
  · intro toAscii u d hd hdp hta
    rw [validate_email_split _ _ _ hd]
    suffices h : emailChecks toAscii u d = false by rw [h]
    by_cases hlen : 64 < u.length ∨ 255 < d.length
    · exact emailChecks_len hlen
    · by_cases hu : emailUserMatch u
      · rw [emailChecks_domain hlen hu hdp, hta]
      · exact emailChecks_user_false (by simpa using hu)

/-- Witness for C1 at concrete inputs: the split of a@b has two fields, and
an always-failing conversion collaborator still produces some false on
a@b_c, whose domain fails both domain checks. -/
theorem claim1_witness :
    (rsplitn2 '@' (strL "a@b")).length = 2 ∧
    validate_email noAscii (strL "a" ++ '@' :: strL "b_c") = some false :=
  ⟨claim1_total_no_panic.2.1 (strL "a@b") (by decide),
   claim1_total_no_panic.2.2 noAscii (strL "a") (strL "b_c") (by decide) (by decide) rfl⟩

/-- C2: with the at sign present, a local part longer than 64 characters or
a domain part longer than 255 characters forces false regardless of the
rest, and at the exact boundaries (local part of exactly 64 characters,
domain part of exactly 255 characters, rest valid) the result is true. -/
theorem claim2_length_guard :
    (∀ (toAscii : List Char → Option (List Char)) (u d : List Char), '@' ∉ d →
        64 < u.length ∨ 255 < d.length →
        validate_email toAscii (u ++ '@' :: d) = some false)
    ∧ (List.replicate 64 'a').length = 64
    ∧ (List.replicate 63 'a' ++ '.' :: List.replicate 63 'a' ++ '.' ::
        List.replicate 63 'a' ++ '.' :: List.replicate 63 'a').length = 255
    ∧ validate_email noAscii
        (List.replicate 64 'a' ++ '@' :: (List.replicate 63 'a' ++ '.' ::
          List.replicate 63 'a' ++ '.' :: List.replicate 63 'a' ++ '.' ::
          List.replicate 63 'a')) = some true := by
  refine ⟨?_, by decide, by decide, by decide⟩
  intro toAscii u d hd hlen
  rw [validate_email_split _ _ _ hd, emailChecks_len hlen]

/-- Witness for C2: a 65-character local part is rejected even though its
grammar and domain are otherwise valid. -/
theorem claim2_witness :
    validate_email noAscii (List.replicate 65 'a' ++ '@' :: strL "mail.com") = some false :=
  claim2_length_guard.1 noAscii (List.replicate 65 'a') (strL "mail.com")
    (by decide) (Or.inl (by decide))

/-- C3 counterexample: the claim requires the IP-literal path to accept
only when the ENTIRE domain has the bracketed form, but EMAIL_LITERAL_RE
is unanchored on the left, so the domain x[127.0.0.1], which fails the
hostname grammar and is not entirely bracketed, is accepted and the whole
address email@x[127.0.0.1] validates. -/
theorem claim3_counterexample :
    validate_email noAscii (strL "email@x[127.0.0.1]") = some true ∧
    emailDomainMatch (strL "x[127.0.0.1]") = false ∧
    validate_domain_part (strL "x[127.0.0.1]") = true ∧
    specEntireLiteral (strL "x[127.0.0.1]") = false := by
  refine ⟨by decide, by decide, by decide, by decide⟩

/-- C3 amended: a domain part failing the hostname grammar is accepted via
the IP-literal path iff it ENDS with a bracketed group: some prefix, then
an opening bracket, one or more capture-class characters, and a closing
bracket that ends the string, such that the leftmost such capture is a
syntactically valid IPv4 or IPv6 address; email@[127.0.0.1] is valid and
email@[127.0.0.256] is not. -/
theorem claim3_literal_path :
    (∀ d : List Char, emailDomainMatch d = false →
      (validate_domain_part d = true ↔
        ∃ pre cap, emailLiteralCaptures d = some cap ∧ validate_ip cap = true ∧
          d = pre ++ '[' :: (cap ++ [']']) ∧ cap ≠ [] ∧ cap.all isLiteralChar = true))
    ∧ validate_email noAscii (strL "email@[127.0.0.1]") = some true
    ∧ validate_email noAscii (strL "email@[127.0.0.256]") = some false := by
  refine ⟨?_, by decide, by decide⟩
  intro d hm
  constructor
  · intro h
    obtain ⟨cap, hc, hip⟩ := validate_domain_part_literal hm h
    obtain ⟨pre, hs, hne, hall⟩ := emailLiteralCaptures_eq_some hc
    exact ⟨pre, cap, hc, hip, hs, hne, hall⟩
  · rintro ⟨pre, cap, hcap, hip, _, _, _⟩
    simp [validate_domain_part, hm, hcap, hip]

/-- Witness for C3 amended, instantiated at the domain [127.0.0.1], which
fails the hostname grammar. -/
theorem claim3_witness :
    validate_domain_part (strL "[127.0.0.1]") = true ↔
      ∃ pre cap, emailLiteralCaptures (strL "[127.0.0.1]") = some cap ∧
        validate_ip cap = true ∧
        strL "[127.0.0.1]" = pre ++ '[' :: (cap ++ [']']) ∧ cap ≠ [] ∧
        cap.all isLiteralChar = true :=
  claim3_literal_path.1 (strL "[127.0.0.1]") (by decide)

/-- C4: the split is performed on the LAST at sign: rsplitn2 cuts off the
suffix after the final at sign as the domain, everything before it is the
local part, and an at sign left in the local part is rejected by the
local-part grammar, so a@b@c.com is invalid. -/
theorem claim4_split_last_at :
    (∀ u d : List Char, '@' ∉ d → rsplitn2 '@' (u ++ '@' :: d) = [d, u])
    ∧ (∀ (toAscii : List Char → Option (List Char)) (u d : List Char), '@' ∉ d →
        '@' ∈ u → validate_email toAscii (u ++ '@' :: d) = some false)
    ∧ rsplitn2 '@' (strL "a@b@c.com") = [strL "c.com", strL "a@b"]
    ∧ validate_email noAscii (strL "a@b@c.com") = some false := by
  refine ⟨rsplitn2_append, ?_, by decide, by decide⟩
  intro toAscii u d hd hat
  rw [validate_email_split _ _ _ hd]
  rw [emailChecks_user_false (emailUserMatch_false_of_mem hat (by decide))]

/-- Witness for C4: an at sign inside the local part x@y forces rejection. -/
theorem claim4_witness :
    validate_email noAscii (strL "x@y" ++ '@' :: strL "z.com") = some false :=
  claim4_split_last_at.2.1 noAscii (strL "x@y") (strL "z.com") (by decide) (by decide)

/-- C5 counterexample: the claim restricts accepted local parts to the
case-insensitive ASCII class, but Rust regex's (?i) applies Unicode simple
case folding, so the long s U+017F (which folds with s) is matched by
EMAIL_USER_RE and the address with local part consisting of that single
character is accepted although the character lies outside the ASCII
reading of the class. -/
theorem claim5_counterexample :
    validate_email noAscii (strL "ſ@example.com") = some true ∧
    (strL "ſ").all isUserCharAscii = false := by
  refine ⟨by decide, by decide⟩

/-- C5 amended: validate_email returns true only if the local part is a
nonempty string over the EMAIL_USER_RE character class closed under
Unicode simple case folding (the ASCII class plus U+017F and U+212A, per
the regex engine's (?i) semantics), matched in its entirety; the quoted
form "test@test"@example.com and the empty local part are rejected, while
an underscore in the local part is allowed. -/
theorem claim5_local_grammar :
    (∀ (toAscii : List Char → Option (List Char)) (s : List Char),
        validate_email toAscii s = some true →
        ∃ u d, s = u ++ '@' :: d ∧ '@' ∉ d ∧ u ≠ [] ∧ u.all isUserChar = true)
    ∧ validate_email noAscii (strL "\"test@test\"@example.com") = some false
    ∧ validate_email noAscii (strL "@example.com") = some false
    ∧ validate_email noAscii (strL "john_doe@example.com") = some true := by
  refine ⟨?_, by decide, by decide, by decide⟩
  intro toAscii s h
  by_cases hat : '@' ∈ s
  · obtain ⟨u, d, rfl, hd, _⟩ := exists_split hat
    rw [validate_email_split _ _ _ hd] at h
    injection h with h2
    have hu : emailUserMatch u = true := by
      by_contra hu
      rw [emailChecks_user_false (by simpa using hu)] at h2
      exact absurd h2 (by simp)
    simp only [emailUserMatch, Bool.and_eq_true] at hu
    exact ⟨u, d, rfl, hd, by simpa using hu.1, hu.2⟩
  · rw [validate_email_noAt _ hat] at h
    exact absurd h (by simp)

/-- Witness for C5: the accepted address john_doe@example.com indeed splits
into a nonempty local part over the allowed class. -/
theorem claim5_witness :
    ∃ u d, strL "john_doe@example.com" = u ++ '@' :: d ∧ '@' ∉ d ∧ u ≠ [] ∧
      u.all isUserChar = true :=
  claim5_local_grammar.1 noAscii (strL "john_doe@example.com") (by decide)

/-- C6 counterexample: the claim restricts labels to alphanumerics and
internal hyphens, but (?i) case folding makes EMAIL_DOMAIN_RE match the
long s U+017F as a label character, so the single-label domain consisting
of that character is accepted by the hostname grammar and the whole
address validates, although the label character is not an ASCII
alphanumeric. -/
theorem claim6_counterexample :
    validate_email noAscii (strL "a@ſ") = some true ∧
    emailDomainMatch (strL "ſ") = true ∧
    ¬ ∀ c ∈ strL "ſ", isAsciiAlnum c = true ∨ c = '-' := by
  refine ⟨by decide, by decide, by decide⟩

/-- C6 amended: the hostname grammar accepts a domain part iff it is a
dot-joined sequence of one or more labels, each 1 to 63 characters,
starting and ending with a folded alphanumeric (an ASCII letter or digit,
or U+017F or U+212A, the Unicode simple-case-folding closure the regex
engine's (?i) gives [a-z0-9]), with only folded alphanumerics and internal
hyphens; consequently a trailing dot is invalid, a bare label is valid and
an underscore in the domain is invalid. -/
theorem claim6_hostname_grammar :
    (∀ d : List Char, emailDomainMatch d = true ↔
      ∃ ls, ls ≠ [] ∧ d = intercalateChar '.' ls ∧ ∀ l ∈ ls, specLabelP l)
    ∧ (∀ toAscii : List Char → Option (List Char),
        validate_email toAscii (strL "abc@bar") = some true)
    ∧ validate_email asciiId (strL "trailingdot@shouldfail.com.") = some false
    ∧ validate_email asciiId (strL "John.Doe@exam_ple.com") = some false := by
  refine ⟨?_, fun toAscii => rfl, by decide, by decide⟩
  intro d
  constructor
  · intro h
    refine ⟨splitOnChar '.' d, splitOnChar_ne_nil '.' d,
      (intercalateChar_splitOnChar '.' d).symm, ?_⟩
    intro l hl
    exact (validLabel_iff l).mp (List.all_eq_true.mp h l hl)
  · rintro ⟨ls, hne, rfl, hlab⟩
    have hnodot : ∀ l ∈ ls, '.' ∉ l := by
      intro l hl hdot
      rcases (hlab l hl).2.2.2.2 '.' hdot with h1 | h1
      · exact absurd h1 (by decide)
      · exact absurd h1 (by decide)
    rw [emailDomainMatch, splitOnChar_intercalateChar ls hne hnodot]
    exact List.all_eq_true.mpr fun l hl => (validLabel_iff l).mpr (hlab l hl)

/-- Witness for C6, instantiated at the single-label domain bar. -/
theorem claim6_witness :
    emailDomainMatch (strL "bar") = true ↔
      ∃ ls, ls ≠ [] ∧ strL "bar" = intercalateChar '.' ls ∧ ∀ l ∈ ls, specLabelP l :=
  claim6_hostname_grammar.1 (strL "bar")

/-- C7 counterexample: the claim says a successful conversion hands the
verdict to the hostname grammar re-run on the converted string, but the
code re-runs the FULL domain check.  The two differ on a reachable input:
the domain of fullwidth digits inside ASCII brackets fails both initial
checks, the collaborator (idna with STD3 off, tabulated by idnaSample)
converts it to a bracketed ASCII IP literal, the hostname grammar rejects
that converted string, yet the address is accepted via the literal path of
the re-run. -/
theorem claim7_counterexample :
    validate_domain_part (strL "[１２７.0.0.1]") = false ∧
    idnaSample (strL "[１２７.0.0.1]") = some (strL "[127.0.0.1]") ∧
    emailDomainMatch (strL "[127.0.0.1]") = false ∧
    validate_email idnaSample (strL "email@[１２７.0.0.1]") = some true := by
  refine ⟨by decide, by decide, by decide, by decide⟩

/-- C7 amended: when the domain part fails both the hostname grammar and
the IP-literal check, the result is determined by one application of the
IDN to-ASCII collaborator: a conversion failure yields false rather than
an exception, and a successful conversion hands the verdict to the FULL
domain check (hostname grammar, then IP-literal) re-run on the converted
string. -/
theorem claim7_idn_fallback :
    ∀ (toAscii : List Char → Option (List Char)) (u d : List Char),
      '@' ∉ d → u.length ≤ 64 → d.length ≤ 255 → emailUserMatch u = true →
      validate_domain_part d = false →
      (toAscii d = none → validate_email toAscii (u ++ '@' :: d) = some false) ∧
      (∀ a, toAscii d = some a →
        validate_email toAscii (u ++ '@' :: d) = some (validate_domain_part a)) := by
  intro toAscii u d hd hu64 hd255 hu hdp
  have hlen : ¬(64 < u.length ∨ 255 < d.length) := by omega
  constructor
  · intro hnone
    rw [validate_email_split _ _ _ hd, emailChecks_domain hlen hu hdp, hnone]
  · intro a ha
    rw [validate_email_split _ _ _ hd, emailChecks_domain hlen hu hdp, ha]

/-- Witness for C7 amended, exercising both branches: the always-failing
collaborator gives false on a@b_c, whose domain fails both domain checks,
and the tabulated idna collaborator succeeds on the fullwidth bracketed
domain, whose converted image the re-run full domain check accepts. -/
theorem claim7_witness :
    validate_email noAscii (strL "a" ++ '@' :: strL "b_c") = some false ∧
    validate_email idnaSample (strL "email" ++ '@' :: strL "[１２７.0.0.1]") = some true :=
  ⟨(claim7_idn_fallback noAscii (strL "a") (strL "b_c") (by decide) (by decide)
      (by decide) (by decide) (by decide)).1 rfl,
   (claim7_idn_fallback idnaSample (strL "email") (strL "[１２７.0.0.1]") (by decide)
      (by decide) (by decide) (by decide) (by decide)).2 (strL "[127.0.0.1]") (by decide)⟩

/-- C8 counterexample: the claim says any newline anywhere forces false,
but a newline inside the domain part before a valid bracketed IP literal
does not: EMAIL_LITERAL_RE is unanchored on the left, so
a@ newline [127.0.0.1] is accepted (the branch needing the conversion
collaborator is not reached, so the instantiation is irrelevant). -/
theorem claim8_counterexample :
    '\n' ∈ strL "a@\n[127.0.0.1]" ∧
    validate_email noAscii (strL "a@\n[127.0.0.1]") = some true := by
  refine ⟨by decide, by decide⟩

/-- C8 amended: a newline in the local part always causes rejection, and a
newline in the domain part forces the hostname grammar to fail, so an
input containing a newline can be accepted only through the IP-literal
path: on a bracketed suffix of the domain itself (EMAIL_LITERAL_RE has no
left anchor) or on a bracketed suffix of the domain's image under a
successful IDN conversion (the STD3-off collaborator passes the newline
through and maps fullwidth characters to ASCII, so the address with the
fullwidth bracketed domain after a newline is also accepted); in
particular the two spec vectors with trailing and embedded newlines are
invalid. -/
theorem claim8_newline :
    (∀ (toAscii : List Char → Option (List Char)) (u d : List Char), '@' ∉ d →
        '\n' ∈ u → validate_email toAscii (u ++ '@' :: d) = some false)
    ∧ (∀ (toAscii : List Char → Option (List Char)) (u d : List Char), '@' ∉ d →
        '\n' ∈ d → validate_email toAscii (u ++ '@' :: d) = some true →
        emailDomainMatch d = false ∧
          ((∃ cap, emailLiteralCaptures d = some cap ∧ validate_ip cap = true) ∨
           (∃ a, toAscii d = some a ∧ validate_domain_part a = true)))
    ∧ validate_email asciiId (strL "a@b.com\n") = some false
    ∧ validate_email asciiId (strL "a\n@b.com") = some false
    ∧ validate_email idnaSample (strL "a@\n[１２７.0.0.1]") = some true := by
  refine ⟨?_, ?_, by decide, by decide, by decide⟩
  · intro toAscii u d hd hnl
    rw [validate_email_split _ _ _ hd]
    rw [emailChecks_user_false (emailUserMatch_false_of_mem hnl (by decide))]
  · intro toAscii u d hd hnl h
    rw [validate_email_split _ _ _ hd] at h
    injection h with h2
    have hm : emailDomainMatch d = false := emailDomainMatch_newline hnl
    refine ⟨hm, ?_⟩
    by_cases hlen : 64 < u.length ∨ 255 < d.length
    · rw [emailChecks_len hlen] at h2
      exact absurd h2 (by simp)
    · by_cases hu : emailUserMatch u = true
      · by_cases hdp : validate_domain_part d = true
        · exact Or.inl (validate_domain_part_literal hm hdp)
        · rw [emailChecks_domain hlen hu (by simpa using hdp)] at h2
          cases ha : toAscii d with
          | none => rw [ha] at h2; simp at h2
          | some a =>
            rw [ha] at h2
            exact Or.inr ⟨a, rfl, h2⟩
      · rw [emailChecks_user_false (by simpa using hu)] at h2
        exact absurd h2 (by simp)

/-- Witness for C8 amended: a newline in the local part rejects, and the
accepted address with a newline in the domain indeed owes its acceptance
to the IP-literal path. -/
theorem claim8_witness :
    validate_email noAscii (strL "a\nb" ++ '@' :: strL "c.com") = some false ∧
    (emailDomainMatch (strL "\n[127.0.0.1]") = false ∧
      ((∃ cap, emailLiteralCaptures (strL "\n[127.0.0.1]") = some cap ∧
          validate_ip cap = true) ∨
       (∃ a, noAscii (strL "\n[127.0.0.1]") = some a ∧
          validate_domain_part a = true))) :=
  ⟨claim8_newline.1 noAscii (strL "a\nb") (strL "c.com") (by decide) (by decide),
   claim8_newline.2.1 noAscii (strL "a") (strL "\n[127.0.0.1]") (by decide) (by decide)
     (by decide)⟩

/-- C9: an empty input or one without an at sign fails immediately with
false, before any split into parts. -/
theorem claim9_no_at :
    ∀ (toAscii : List Char → Option (List Char)) (s : List Char),
      s = [] ∨ '@' ∉ s → validate_email toAscii s = some false := by
  intro toAscii s h
  simp only [validate_email]
  rw [if_pos h]

/-- Witness for C9 at the at-free input abc. -/
theorem claim9_witness : validate_email noAscii (strL "abc") = some false :=
  claim9_no_at noAscii (strL "abc") (Or.inr (by decide))

/-- C10: an unbracketed dotted-decimal IPv4 string is accepted as a domain
because its all-numeric labels already satisfy the hostname grammar:
email@127.0.0.1 validates for every conversion collaborator, and the
string 127.0.0.1 passes both the hostname grammar and the IPv4 parser. -/
theorem claim10_bare_ipv4 :
    (∀ toAscii : List Char → Option (List Char),
        validate_email toAscii (strL "email@127.0.0.1") = some true)
    ∧ emailDomainMatch (strL "127.0.0.1") = true
    ∧ validateIpv4 (strL "127.0.0.1") = true :=
  ⟨fun toAscii => rfl, by decide, by decide⟩

/-- Witness for C10, instantiated at the always-failing collaborator. -/
theorem claim10_witness :
    validate_email noAscii (strL "email@127.0.0.1") = some true :=
  claim10_bare_ipv4.1 noAscii
